import Mathlib

/-!
Shallow embedding of the batch-fetch / freshness-cache core of the
top-earning enrichment pipeline, and verification of its specification.

Sources embedded:
- `src/scrape/votes.ts` (`chunk`, `fetchVotesBatch`)
- `src/scrape/favorites.ts` (`fetchFavoritesCountBatch`)
- `src/cache/favoritesCache.ts` (`loadFavoritesCache`, `isFresh`,
  `getCachedFavorites`, `setCachedFavorites`, `splitByFreshness`)
- `src/jobs/topEarning1500Enriched.ts` (the paid-access merge cascade)
- the resilient fetcher `fetchJsonWithRetry` (its source file is not part of
  the repository snapshot; it is modelled from the specification, §4.2)

Modelling conventions:
- JavaScript numbers are modelled by `JsNumber`: a finite integer value, or
  one of the non-finite values NaN / +Infinity / -Infinity.  The ids and
  counts manipulated by this code are integers, so finite values carry `Int`.
- JavaScript `Map` / plain-object stores are modelled as association lists
  with JS assignment semantics (`jsSet`: overwrite in place, or append) and
  first-match lookup (`jsGet`), which coincides with object lookup because
  JS objects hold at most one binding per key.
- Date strings are modelled by their `Date.parse` outcome (`FetchedAt`):
  either a millisecond timestamp or an unparsable string.  The falsy check
  `!entry?.fetchedAt` on the empty string behaves identically to an
  unparsable string (`Date.parse("")` is NaN), so both collapse into
  `FetchedAt.unparsable`.  `new Date().toISOString()` round-trips through
  `Date.parse` to the same millisecond, so `set` stores `parsable now`.
- `Date.now()` is passed explicitly as an `Int` argument `now`.
- The single-threaded event loop of the source means workers interleave at
  `await` points only; the batch runs are modelled as the sequential order
  in which chunk indices are claimed, which is faithful for the result-map
  contents and the failure policy (a rejected worker promise makes
  `Promise.all`, and hence the whole batch call, reject).
-/

namespace TopEarning

/-! ## JavaScript numbers -/

/-- A JavaScript number as far as this code observes it: a finite integer
value or one of the non-finite values. -/
inductive JsNumber
  | num (v : Int)
  | nan
  | posInf
  | negInf
deriving DecidableEq, Repr

/-- `Number.isFinite`. -/
def JsNumber.isFinite : JsNumber → Bool
  | .num _ => true
  | _ => false

/-- The JS comparison `n > 0`. -/
def JsNumber.gtZero : JsNumber → Bool
  | .num v => decide (0 < v)
  | .posInf => true
  | _ => false

/-! ## Association-list model of JS `Map` / object stores -/

/-- Lookup in a JS map/object: first binding for the key. -/
def jsGet {κ β : Type} [DecidableEq κ] : List (κ × β) → κ → Option β
  | [], _ => none
  | p :: rest, k => if p.1 = k then some p.2 else jsGet rest k

/-- Assignment in a JS map/object: overwrite the binding for the key in
place, or append a new binding at the end.  (A JS object holds at most one
binding per key, so replacing the first occurrence is exact.) -/
def jsSet {κ β : Type} [DecidableEq κ] : List (κ × β) → κ → β → List (κ × β)
  | [], k, v => [(k, v)]
  | p :: rest, k, v => if p.1 = k then (k, v) :: rest else p :: jsSet rest k v

theorem jsGet_jsSet_self {κ β : Type} [DecidableEq κ]
    (m : List (κ × β)) (k : κ) (v : β) : jsGet (jsSet m k v) k = some v := by
  induction m with
  | nil => simp [jsSet, jsGet]
  | cons p rest ih =>
    by_cases hp : p.1 = k
    · simp [jsSet, jsGet, hp]
    · simpa [jsSet, jsGet, hp] using ih

theorem jsGet_jsSet_other {κ β : Type} [DecidableEq κ]
    (m : List (κ × β)) (k k' : κ) (v : β) (hk : k' ≠ k) :
    jsGet (jsSet m k v) k' = jsGet m k' := by
  induction m with
  | nil => simp [jsSet, jsGet, Ne.symm hk]
  | cons p rest ih =>
    by_cases hp : p.1 = k
    · simp [jsSet, jsGet, hp, hk, Ne.symm hk]
    · by_cases hpk : p.1 = k'
      · simp [jsSet, jsGet, hp, hpk, hk]
      · simpa [jsSet, jsGet, hp, hpk] using ih

/-- Keys of the store. -/
def storeKeys {κ β : Type} (m : List (κ × β)) : List κ := m.map Prod.fst

theorem mem_storeKeys_jsSet {κ β : Type} [DecidableEq κ]
    (m : List (κ × β)) (k x : κ) (v : β) :
    x ∈ storeKeys (jsSet m k v) ↔ x = k ∨ x ∈ storeKeys m := by
  induction m with
  | nil => simp [jsSet, storeKeys]
  | cons p rest ih =>
    by_cases hp : p.1 = k
    · simp only [jsSet, hp, if_true, storeKeys, List.map_cons, List.mem_cons]
      tauto
    · simp only [jsSet, hp, if_false, storeKeys, List.map_cons, List.mem_cons]
      rw [show (List.map Prod.fst (jsSet rest k v)) = storeKeys (jsSet rest k v) from rfl,
        ih]
      unfold storeKeys
      tauto

theorem storeKeys_jsSet_nodup {κ β : Type} [DecidableEq κ]
    (m : List (κ × β)) (k : κ) (v : β)
    (h : (storeKeys m).Nodup) : (storeKeys (jsSet m k v)).Nodup := by
  induction m with
  | nil => simp [jsSet, storeKeys]
  | cons p rest ih =>
    simp only [storeKeys, List.map_cons, List.nodup_cons] at h
    by_cases hp : p.1 = k
    · simp only [jsSet, hp, if_true, storeKeys, List.map_cons, List.nodup_cons]
      exact ⟨hp ▸ h.1, h.2⟩
    · simp only [jsSet, hp, if_false, storeKeys, List.map_cons, List.nodup_cons]
      refine ⟨?_, ih h.2⟩
      intro hx
      rcases (mem_storeKeys_jsSet rest k p.1 v).mp hx with hxk | hxm
      · exact hp hxk
      · exact h.1 hxm

/-! ## Deduplication and chunking (`src/scrape/votes.ts`) -/

/-- `Array.from(new Set(xs))`: keep the first occurrence of each element,
in input order.  `seen` accumulates the elements already emitted. -/
def dedupFirstAux {α : Type} [DecidableEq α] (seen : List α) : List α → List α
  | [] => []
  | x :: xs =>
    if x ∈ seen then dedupFirstAux seen xs
    else x :: dedupFirstAux (x :: seen) xs

/-- `Array.from(new Set(xs))`. -/
def dedupFirst {α : Type} [DecidableEq α] (xs : List α) : List α :=
  dedupFirstAux [] xs

theorem mem_dedupFirstAux {α : Type} [DecidableEq α]
    (seen : List α) (xs : List α) (x : α) :
    x ∈ dedupFirstAux seen xs ↔ x ∈ xs ∧ x ∉ seen := by
  induction xs generalizing seen with
  | nil => simp [dedupFirstAux]
  | cons y ys ih =>
    by_cases hy : y ∈ seen
    · simp only [dedupFirstAux, hy, if_true, ih, List.mem_cons]
      constructor
      · rintro ⟨hm, hs⟩; exact ⟨Or.inr hm, hs⟩
      · rintro ⟨hm | hm, hs⟩
        · exact absurd (hm ▸ hy) hs
        · exact ⟨hm, hs⟩
    · simp only [dedupFirstAux, hy, if_false, List.mem_cons, ih]
      constructor
      · rintro (hx | ⟨hm, hs⟩)
        · exact ⟨Or.inl hx, hx ▸ hy⟩
        · simp only [List.mem_cons, not_or] at hs
          exact ⟨Or.inr hm, hs.2⟩
      · rintro ⟨hx | hm, hs⟩
        · exact Or.inl hx
        · by_cases hxy : x = y
          · exact Or.inl hxy
          · exact Or.inr ⟨hm, by simp [List.mem_cons, hxy, hs]⟩

theorem mem_dedupFirst {α : Type} [DecidableEq α] (xs : List α) (x : α) :
    x ∈ dedupFirst xs ↔ x ∈ xs := by
  simp [dedupFirst, mem_dedupFirstAux]

theorem nodup_dedupFirstAux {α : Type} [DecidableEq α]
    (seen : List α) (xs : List α) : (dedupFirstAux seen xs).Nodup := by
  induction xs generalizing seen with
  | nil => simp [dedupFirstAux]
  | cons y ys ih =>
    by_cases hy : y ∈ seen
    · simpa [dedupFirstAux, hy] using ih seen
    · simp only [dedupFirstAux, hy, if_false, List.nodup_cons]
      refine ⟨?_, ih (y :: seen)⟩
      intro hmem
      exact ((mem_dedupFirstAux (y :: seen) ys y).mp hmem).2 (List.mem_cons_self y seen)

theorem nodup_dedupFirst {α : Type} [DecidableEq α] (xs : List α) :
    (dedupFirst xs).Nodup :=
  nodup_dedupFirstAux [] xs

/-- Fuel-driven worker for `chunk`: one slice per fuel unit.  Instantiated
with `fuel = l.length`, which suffices because the source only calls `chunk`
with a clamped `size ≥ 1`, so every slice consumes at least one element. -/
def chunkListAux {α : Type} (size : Nat) : Nat → List α → List (List α)
  | _, [] => []
  | 0, _ :: _ => []
  | fuel + 1, x :: xs =>
    (x :: xs).take size :: chunkListAux size fuel ((x :: xs).drop size)

/-- The `chunk` helper of `src/scrape/votes.ts`: slice the array into
consecutive pieces of `size` elements (the last piece may be shorter). -/
def chunkList {α : Type} (size : Nat) (l : List α) : List (List α) :=
  chunkListAux size l.length l

theorem chunkListAux_flatten {α : Type} (size : Nat) (hs : 0 < size) :
    ∀ (fuel : Nat) (l : List α), l.length ≤ fuel →
      (chunkListAux size fuel l).flatten = l := by
  intro fuel
  induction fuel with
  | zero =>
    intro l hl
    rw [List.length_eq_zero.mp (Nat.le_zero.mp hl)]
    rfl
  | succ n ih =>
    intro l hl
    match l with
    | [] => rfl
    | x :: xs =>
      simp only [chunkListAux, List.flatten_cons]
      rw [ih ((x :: xs).drop size) (by
        simp only [List.length_cons] at hl
        simp only [List.length_drop, List.length_cons]
        omega)]
      exact List.take_append_drop size (x :: xs)

theorem chunkList_flatten {α : Type} (size : Nat) (hs : 0 < size)
    (l : List α) : (chunkList size l).flatten = l :=
  chunkListAux_flatten size hs l.length l le_rfl

theorem chunkListAux_length_le {α : Type} (size : Nat) :
    ∀ (fuel : Nat) (l : List α) (c : List α),
      c ∈ chunkListAux size fuel l → c.length ≤ size := by
  intro fuel
  induction fuel with
  | zero =>
    intro l c hc
    match l with
    | [] => exact absurd hc (List.not_mem_nil c)
    | _ :: _ => exact absurd hc (List.not_mem_nil c)
  | succ n ih =>
    intro l c hc
    match l with
    | [] => exact absurd hc (List.not_mem_nil c)
    | x :: xs =>
      simp only [chunkListAux, List.mem_cons] at hc
      rcases hc with hc | hc
      · subst hc; exact List.length_take_le size (x :: xs)
      · exact ih _ c hc

theorem chunkList_length_le {α : Type} (size : Nat) (l : List α) :
    ∀ c ∈ chunkList size l, c.length ≤ size :=
  fun c hc => chunkListAux_length_le size l.length l c hc

/-! ## The votes batch plan (`fetchVotesBatch`, `src/scrape/votes.ts`) -/

/-- `Math.min(Math.max(opts?.batchSize ?? 50, 1), 100)`. -/
def clampBatchSize (bs : Option Int) : Nat :=
  (min (max (bs.getD 50) 1) 100).toNat

/-- `Array.from(new Set(universeIds)).filter((n) => Number.isFinite(n) && n > 0)`. -/
def validUniverseIds (universeIds : List JsNumber) : List JsNumber :=
  (dedupFirst universeIds).filter (fun n => n.isFinite && n.gtZero)

/-- The batch plan of `fetchVotesBatch`: `chunk(uniq, batchSize)`. -/
def votesBatchPlan (universeIds : List JsNumber) (bs : Option Int) :
    List (List JsNumber) :=
  chunkList (clampBatchSize bs) (validUniverseIds universeIds)

theorem clampBatchSize_pos (bs : Option Int) : 0 < clampBatchSize bs := by
  unfold clampBatchSize
  rcases bs with _ | n
  · decide
  · simp only [Option.getD_some]
    omega

theorem validUniverseIds_nodup (ids : List JsNumber) :
    (validUniverseIds ids).Nodup :=
  (nodup_dedupFirst ids).filter _

theorem mem_validUniverseIds (ids : List JsNumber) (x : JsNumber) :
    x ∈ validUniverseIds ids ↔ x ∈ ids ∧ x.isFinite = true ∧ x.gtZero = true := by
  simp [validUniverseIds, List.mem_filter, mem_dedupFirst, and_assoc]

theorem votesBatchPlan_flatten (ids : List JsNumber) (bs : Option Int) :
    (votesBatchPlan ids bs).flatten = validUniverseIds ids :=
  chunkList_flatten _ (clampBatchSize_pos bs) _

/-- C1: the batch plan of `fetchVotesBatch` deduplicates the input, drops
non-finite and non-positive ids, and partitions the remainder into ordered
chunks of at most the (clamped) batch size; the chunks are pairwise disjoint
and their union is exactly the set of distinct positive finite ids of the
input. -/
theorem fetchVotesBatch_plan_partition (ids : List JsNumber) (bs : Option Int) :
    (votesBatchPlan ids bs).Pairwise List.Disjoint ∧
    (∀ x, x ∈ (votesBatchPlan ids bs).flatten ↔
      x ∈ ids ∧ x.isFinite = true ∧ x.gtZero = true) ∧
    (∀ c ∈ votesBatchPlan ids bs, c.length ≤ clampBatchSize bs) := by
  refine ⟨?_, ?_, chunkList_length_le _ _⟩
  · have hnodup : (votesBatchPlan ids bs).flatten.Nodup := by
      rw [votesBatchPlan_flatten]
      exact validUniverseIds_nodup ids
    exact (List.nodup_flatten.mp hnodup).2
  · intro x
    rw [votesBatchPlan_flatten]
    exact mem_validUniverseIds ids x

/-- C1 witness: on `[10, 20, 20, NaN, -3, 30]` with batch size 2, the plan
is `[[10, 20], [30]]`; instantiating the theorem at this input discharges
its membership hypotheses. -/
theorem fetchVotesBatch_plan_partition_witness :
    votesBatchPlan [.num 10, .num 20, .num 20, .nan, .num (-3), .num 30]
      (some 2) = [[.num 10, .num 20], [.num 30]] ∧
    (JsNumber.num 20 ∈ (votesBatchPlan
      [.num 10, .num 20, .num 20, .nan, .num (-3), .num 30] (some 2)).flatten ↔
      JsNumber.num 20 ∈
        ([.num 10, .num 20, .num 20, .nan, .num (-3), .num 30] : List JsNumber) ∧
      (JsNumber.num 20).isFinite = true ∧ (JsNumber.num 20).gtZero = true) ∧
    ([JsNumber.num 10, JsNumber.num 20].length ≤ clampBatchSize (some 2)) :=
  ⟨by decide,
    (fetchVotesBatch_plan_partition
      [.num 10, .num 20, .num 20, .nan, .num (-3), .num 30] (some 2)).2.1
      (JsNumber.num 20),
    (fetchVotesBatch_plan_partition
      [.num 10, .num 20, .num 20, .nan, .num (-3), .num 30] (some 2)).2.2
      [JsNumber.num 10, JsNumber.num 20] (by decide)⟩

/-! ## Freshness cache (`src/cache/favoritesCache.ts`) -/

/-- A `fetchedAt` date string, modelled by its `Date.parse` outcome: either
the millisecond timestamp it parses to, or an unparsable (or empty, hence
falsy) string. -/
inductive FetchedAt
  | parsable (ms : Int)
  | unparsable
deriving DecidableEq, Repr

/-- `Date.parse`, on the model. -/
def dateParse : FetchedAt → Option Int
  | .parsable ms => some ms
  | .unparsable => none

/-- `type CacheEntry = { fetchedAt: string; favoritesCount: number }`. -/
structure CacheEntry where
  fetchedAt : FetchedAt
  favoritesCount : Int
deriving DecidableEq, Repr

/-- `type CacheFile = { version: 1; entries: Record<string, CacheEntry> }`.
Keys of `entries` are `String(universeId)`. -/
structure CacheFile where
  entries : List (String × CacheEntry)
deriving DecidableEq, Repr

/-- `maxAgeDays * 24 * 60 * 60 * 1000`. -/
def maxAgeMs (maxAgeDays : Int) : Int := maxAgeDays * 24 * 60 * 60 * 1000

/-- `isFresh(entry, maxAgeDays)`.  `now` is `Date.now()`.  An absent entry
and a falsy or unparsable `fetchedAt` are both stale; otherwise the age must
be non-negative (clock skew) and at most `maxAgeDays` days. -/
def isFresh (now : Int) (entry : Option CacheEntry) (maxAgeDays : Int) : Bool :=
  match entry with
  | none => false
  | some e =>
    match dateParse e.fetchedAt with
    | none => false
    | some t =>
      let ageMs := now - t
      decide (0 ≤ ageMs) && decide (ageMs ≤ maxAgeMs maxAgeDays)

/-- `getCachedFavorites(cache, universeId, maxAgeDays)`. -/
def getCachedFavorites (now : Int) (cache : CacheFile) (universeId : Int)
    (maxAgeDays : Int) : Option Int :=
  let entry := jsGet cache.entries (toString universeId)
  if isFresh now entry maxAgeDays then entry.map (·.favoritesCount) else none

/-- `setCachedFavorites(cache, universeId, favoritesCount)`: overwrite or
insert, stamping `fetchedAt = new Date().toISOString()`, which parses back
to the current instant `now`. -/
def setCachedFavorites (now : Int) (cache : CacheFile) (universeId : Int)
    (favoritesCount : Int) : CacheFile :=
  { entries := jsSet cache.entries (toString universeId)
      ⟨.parsable now, favoritesCount⟩ }

/-- `splitByFreshness(cache, universeIds, maxAgeDays).staleOrMissing`. -/
def splitByFreshness (now : Int) (cache : CacheFile) (universeIds : List Int)
    (maxAgeDays : Int) : List Int :=
  match universeIds with
  | [] => []
  | id :: rest =>
    if isFresh now (jsGet cache.entries (toString id)) maxAgeDays then
      splitByFreshness now cache rest maxAgeDays
    else id :: splitByFreshness now cache rest maxAgeDays

/-- `isFresh` spelled out as the spec states it: some entry exists, its
`fetchedAt` parses, and the age is neither negative nor beyond the window. -/
theorem isFresh_iff (now : Int) (entry : Option CacheEntry) (d : Int) :
    isFresh now entry d = true ↔
      ∃ e t, entry = some e ∧ dateParse e.fetchedAt = some t ∧
        0 ≤ now - t ∧ now - t ≤ maxAgeMs d := by
  match entry with
  | none => simp [isFresh]
  | some e =>
    match he : dateParse e.fetchedAt with
    | none => simp [isFresh, he]
    | some t =>
      simp only [isFresh, he, Bool.and_eq_true, decide_eq_true_eq,
        Option.some.injEq]
      constructor
      · rintro ⟨h0, h1⟩
        exact ⟨e, t, rfl, he, h0, h1⟩
      · rintro ⟨e', t', he', hp', h0, h1⟩
        subst he'
        rw [he] at hp'
        obtain rfl : t = t' := Option.some_inj.mp hp'
        exact ⟨h0, h1⟩

/-- C2: `getCachedFavorites` returns the cached count exactly when the entry
exists, its `fetchedAt` parses, and the age is neither negative nor more
than `maxAgeDays` days; in every other case it returns `null`. -/
theorem getCachedFavorites_spec (now : Int) (cache : CacheFile)
    (universeId : Int) (d : Int) (v : Int) :
    getCachedFavorites now cache universeId d = some v ↔
      ∃ e t, jsGet cache.entries (toString universeId) = some e ∧
        dateParse e.fetchedAt = some t ∧
        0 ≤ now - t ∧ now - t ≤ maxAgeMs d ∧ v = e.favoritesCount := by
  unfold getCachedFavorites
  constructor
  · intro h
    by_cases hf : isFresh now (jsGet cache.entries (toString universeId)) d = true
    · rcases (isFresh_iff now _ d).mp hf with ⟨e, t, he, hp, h0, h1⟩
      rw [if_pos hf, he] at h
      refine ⟨e, t, he, hp, h0, h1, ?_⟩
      simpa using h.symm
    · rw [if_neg hf] at h
      exact Option.noConfusion h
  · rintro ⟨e, t, he, hp, h0, h1, hv⟩
    have hf : isFresh now (jsGet cache.entries (toString universeId)) d = true :=
      (isFresh_iff now _ d).mpr ⟨e, t, he, hp, h0, h1⟩
    rw [if_pos hf, he, hv]
    rfl

/-- C2 witness: a fresh entry is returned; a stale entry of the same cache
(6-day-old value against a 5-day window) is not. -/
theorem getCachedFavorites_spec_witness :
    (getCachedFavorites 1000 ⟨[("5", ⟨.parsable 400, 42⟩)]⟩ 5 1 = some 42 ↔
      ∃ e t, jsGet ([("5", ⟨.parsable 400, 42⟩)] :
          List (String × CacheEntry)) (toString (5 : Int)) = some e ∧
        dateParse e.fetchedAt = some t ∧
        0 ≤ 1000 - t ∧ 1000 - t ≤ maxAgeMs 1 ∧ (42 : Int) = e.favoritesCount) ∧
    getCachedFavorites 1000 ⟨[("5", ⟨.parsable 400, 42⟩)]⟩ 5 1 = some 42 :=
  ⟨getCachedFavorites_spec 1000 ⟨[("5", ⟨.parsable 400, 42⟩)]⟩ 5 1 42,
    (getCachedFavorites_spec 1000 ⟨[("5", ⟨.parsable 400, 42⟩)]⟩ 5 1 42).mpr
      ⟨⟨.parsable 400, 42⟩, 400, by decide, rfl, by decide, by decide, rfl⟩⟩

/-- C3: `splitByFreshness` returns exactly the input ids whose cache entry
is not fresh (missing, unparseable, or outside the freshness window),
preserving the input order (it is the stale-filtered input, hence a sublist
of the input). -/
theorem splitByFreshness_spec (now : Int) (cache : CacheFile)
    (ids : List Int) (d : Int) :
    splitByFreshness now cache ids d =
      ids.filter
        (fun id => !(isFresh now (jsGet cache.entries (toString id)) d)) ∧
    List.Sublist (splitByFreshness now cache ids d) ids ∧
    (∀ id, id ∈ splitByFreshness now cache ids d ↔ id ∈ ids ∧
      ¬ ∃ e t, jsGet cache.entries (toString id) = some e ∧
        dateParse e.fetchedAt = some t ∧
        0 ≤ now - t ∧ now - t ≤ maxAgeMs d) := by
  have hfil : splitByFreshness now cache ids d =
      ids.filter
        (fun id => !(isFresh now (jsGet cache.entries (toString id)) d)) := by
    induction ids with
    | nil => rfl
    | cons id rest ih =>
      by_cases hf : isFresh now (jsGet cache.entries (toString id)) d = true
      · simp [splitByFreshness, hf, List.filter_cons, ih]
      · simp only [Bool.not_eq_true] at hf
        simp [splitByFreshness, hf, List.filter_cons, ih]
  refine ⟨hfil, ?_, ?_⟩
  · rw [hfil]
    exact List.filter_sublist ids
  · intro id
    rw [hfil, List.mem_filter]
    constructor
    · rintro ⟨hm, hs⟩
      refine ⟨hm, ?_⟩
      rintro ⟨e, t, he, hp, h0, h1⟩
      have := (isFresh_iff now (jsGet cache.entries (toString id)) d).mpr
        ⟨e, t, he, hp, h0, h1⟩
      simp [this] at hs
    · rintro ⟨hm, hs⟩
      refine ⟨hm, ?_⟩
      by_cases hf : isFresh now (jsGet cache.entries (toString id)) d = true
      · exact absurd ((isFresh_iff now _ d).mp hf) hs
      · simp only [Bool.not_eq_true] at hf
        simp [hf]

/-- C3 witness: with a cache holding only a fresh entry for 20, the inputs
10 (missing), 20 (fresh) and 30 (stale entry) split into `[10, 30]`. -/
theorem splitByFreshness_spec_witness :
    splitByFreshness 1000
      ⟨[("20", ⟨.parsable 900, 1⟩), ("30", ⟨.unparsable, 2⟩)]⟩
      [10, 20, 30] 1 = [10, 30] ∧
    ((10 : Int) ∈ splitByFreshness 1000
      ⟨[("20", ⟨.parsable 900, 1⟩), ("30", ⟨.unparsable, 2⟩)]⟩
      [10, 20, 30] 1 ↔ (10 : Int) ∈ ([10, 20, 30] : List Int) ∧
      ¬ ∃ e t, jsGet ([("20", ⟨.parsable 900, 1⟩), ("30", ⟨.unparsable, 2⟩)] :
          List (String × CacheEntry)) (toString (10 : Int)) = some e ∧
        dateParse e.fetchedAt = some t ∧
        0 ≤ 1000 - t ∧ 1000 - t ≤ maxAgeMs 1) :=
  ⟨by decide,
    (splitByFreshness_spec 1000
      ⟨[("20", ⟨.parsable 900, 1⟩), ("30", ⟨.unparsable, 2⟩)]⟩
      [10, 20, 30] 1).2.2 10⟩

/-- C8: `setCachedFavorites` replaces or inserts the single entry under the
id's key, stamped with the current instant, leaves every other key's entry
unchanged, and preserves key uniqueness (at most one entry per subject). -/
theorem setCachedFavorites_spec (now : Int) (cache : CacheFile)
    (universeId : Int) (v : Int) :
    jsGet (setCachedFavorites now cache universeId v).entries
      (toString universeId) = some ⟨.parsable now, v⟩ ∧
    (∀ k, k ≠ toString universeId →
      jsGet (setCachedFavorites now cache universeId v).entries k =
        jsGet cache.entries k) ∧
    ((storeKeys cache.entries).Nodup →
      (storeKeys (setCachedFavorites now cache universeId v).entries).Nodup) :=
  ⟨jsGet_jsSet_self cache.entries (toString universeId) ⟨.parsable now, v⟩,
    fun k hk => jsGet_jsSet_other cache.entries (toString universeId) k
      ⟨.parsable now, v⟩ hk,
    fun h => storeKeys_jsSet_nodup cache.entries (toString universeId)
      ⟨.parsable now, v⟩ h⟩

/-- C8 witness: overwriting id 5 in a two-entry cache leaves the entry of
key "7" untouched and keeps the keys duplicate-free. -/
theorem setCachedFavorites_spec_witness :
    jsGet (setCachedFavorites 100
      ⟨[("5", ⟨.unparsable, 1⟩), ("7", ⟨.parsable 2, 3⟩)]⟩ 5 9).entries
      (toString (5 : Int)) = some ⟨.parsable 100, 9⟩ ∧
    jsGet (setCachedFavorites 100
      ⟨[("5", ⟨.unparsable, 1⟩), ("7", ⟨.parsable 2, 3⟩)]⟩ 5 9).entries "7" =
      jsGet ([("5", ⟨.unparsable, 1⟩), ("7", ⟨.parsable 2, 3⟩)] :
        List (String × CacheEntry)) "7" ∧
    (storeKeys (setCachedFavorites 100
      ⟨[("5", ⟨.unparsable, 1⟩), ("7", ⟨.parsable 2, 3⟩)]⟩ 5 9).entries).Nodup :=
  ⟨(setCachedFavorites_spec 100
      ⟨[("5", ⟨.unparsable, 1⟩), ("7", ⟨.parsable 2, 3⟩)]⟩ 5 9).1,
    (setCachedFavorites_spec 100
      ⟨[("5", ⟨.unparsable, 1⟩), ("7", ⟨.parsable 2, 3⟩)]⟩ 5 9).2.1 "7"
      (by decide),
    (setCachedFavorites_spec 100
      ⟨[("5", ⟨.unparsable, 1⟩), ("7", ⟨.parsable 2, 3⟩)]⟩ 5 9).2.2
      (by decide)⟩

/-- C10: set-then-get round-trip.  Writing a value stamps `fetchedAt` with
the current instant, which is fresh for any non-negative window, so reading
the same id back at the same instant returns the value just written. -/
theorem setThenGetCachedFavorites (now : Int) (cache : CacheFile)
    (universeId : Int) (v : Int) (d : Int) (hd : 0 ≤ d) :
    getCachedFavorites now (setCachedFavorites now cache universeId v)
      universeId d = some v := by
  have hf : isFresh now (some ⟨.parsable now, v⟩) d = true := by
    simp only [isFresh, dateParse, Bool.and_eq_true, decide_eq_true_eq]
    refine ⟨by omega, ?_⟩
    simp only [sub_self, maxAgeMs]
    omega
  unfold getCachedFavorites setCachedFavorites
  simp only
  rw [jsGet_jsSet_self, if_pos hf]
  rfl

/-- C10 witness: at instant 500, writing 3 for id 9 into the empty cache and
reading it back with a 0-day window returns 3. -/
theorem setThenGetCachedFavorites_witness :
    (0 : Int) ≤ 0 ∧
    getCachedFavorites 500 (setCachedFavorites 500 ⟨[]⟩ 9 3) 9 0 = some 3 :=
  ⟨by decide, setThenGetCachedFavorites 500 ⟨[]⟩ 9 3 0 (by decide)⟩

/-! ## Cache-file loading (`loadFavoritesCache`, `src/cache/favoritesCache.ts`)

`loadFavoritesCache` reads a file and runs `JSON.parse` on it; the combined
read-and-parse outcome is modelled as `Option Json` (`none` when either
throws), and the function's body is the shape check the source performs on
the parsed value.  The source casts `parsed as CacheFile` without validating
the inner shape, so the model returns the raw `Json` value. -/

/-- A parsed JSON value. -/
inductive Json
  | null
  | bool (b : Bool)
  | num (v : Int)
  | str (s : String)
  | arr (elems : List Json)
  | obj (fields : List (String × Json))

/-- JS property access `j.k` on a parsed value: a field of an object,
`undefined` (`none`) otherwise. -/
def getField : Json → String → Option Json
  | .obj fields, k => jsGet fields k
  | _, _ => none

/-- JS falsiness of a parsed JSON value (`!parsed`). -/
def jsFalsy : Json → Bool
  | .null => true
  | .bool b => !b
  | .num v => v == 0
  | .str s => s == ""
  | _ => false

/-- The JS check `parsed.version !== 1` (negated): the field is the number 1. -/
def isNum1 : Option Json → Bool
  | some (.num v) => v == 1
  | _ => false

/-- The JS check `typeof x === "object"`: true for objects, arrays — and
`null`. -/
def typeofIsObject : Option Json → Bool
  | some .null => true
  | some (.arr _) => true
  | some (.obj _) => true
  | _ => false

/-- `{ version: 1, entries: {} }`. -/
def emptyCacheJson : Json := .obj [("version", .num 1), ("entries", .obj [])]

/-- `loadFavoritesCache(filePath)` on the read-and-parse outcome `raw`. -/
def loadFavoritesCache : Option Json → Json
  | none => emptyCacheJson
  | some parsed =>
    if jsFalsy parsed || !(isNum1 (getField parsed "version")) ||
        !(typeofIsObject (getField parsed "entries")) then emptyCacheJson
    else parsed

/-- Whether the value's `entries` field is an object mapping (the shape the
rest of the cache code relies on). -/
def entriesIsMapping (j : Json) : Bool :=
  match getField j "entries" with
  | some (.obj _) => true
  | _ => false

/-- C4 counterexample: the file `{"version": 1, "entries": null}` is JSON of
the wrong shape, yet `loadFavoritesCache` returns it unchanged (in JS,
`typeof null === "object"`), not the well-formed empty cache file the claim
promises. -/
theorem loadFavoritesCache_wrong_shape :
    loadFavoritesCache
      (some (.obj [("version", .num 1), ("entries", .null)])) =
      .obj [("version", .num 1), ("entries", .null)] ∧
    entriesIsMapping (.obj [("version", .num 1), ("entries", .null)]) = false ∧
    Json.obj [("version", .num 1), ("entries", .null)] ≠ emptyCacheJson := by
  refine ⟨rfl, rfl, ?_⟩
  intro h
  simp only [emptyCacheJson, Json.obj.injEq, List.cons.injEq, Prod.mk.injEq] at h
  exact Json.noConfusion h.2.1.2

/-- C4 (amended): `loadFavoritesCache` never propagates an error — it always
returns either the fresh empty cache file (on read/parse failure, a falsy
value, `version !== 1`, or an `entries` field whose `typeof` is not
"object") or the parsed value unchanged; a value passing those checks is
returned as-is even when its shape is otherwise wrong. -/
theorem loadFavoritesCache_failsSoft (raw : Option Json) :
    (loadFavoritesCache raw = emptyCacheJson ∨
      ∃ j, raw = some j ∧ loadFavoritesCache raw = j) ∧
    (∀ j, raw = some j → jsFalsy j = false →
      isNum1 (getField j "version") = true →
      typeofIsObject (getField j "entries") = true →
      loadFavoritesCache raw = j) ∧
    (∀ j, raw = some j →
      (jsFalsy j = true ∨ isNum1 (getField j "version") = false ∨
        typeofIsObject (getField j "entries") = false) →
      loadFavoritesCache raw = emptyCacheJson) := by
  refine ⟨?_, ?_, ?_⟩
  · match raw with
    | none => exact Or.inl rfl
    | some parsed =>
      simp only [loadFavoritesCache]
      by_cases hc : (jsFalsy parsed || !(isNum1 (getField parsed "version")) ||
          !(typeofIsObject (getField parsed "entries"))) = true
      · rw [if_pos hc]
        exact Or.inl rfl
      · rw [if_neg hc]
        exact Or.inr ⟨parsed, rfl, rfl⟩
  · rintro j rfl h1 h2 h3
    simp only [loadFavoritesCache]
    rw [if_neg (by simp [h1, h2, h3])]
  · rintro j rfl hbad
    simp only [loadFavoritesCache]
    rw [if_pos (by rcases hbad with h | h | h <;> simp [h])]

/-- C4 witness: a well-formed version-1 file is returned parsed, and a
version-2 file collapses to the empty cache; both are instances of the
amended theorem at concrete inputs. -/
theorem loadFavoritesCache_failsSoft_witness :
    loadFavoritesCache
      (some (.obj [("version", .num 1), ("entries", .obj [])])) =
      .obj [("version", .num 1), ("entries", .obj [])] ∧
    loadFavoritesCache (some (.obj [("version", .num 2)])) = emptyCacheJson :=
  ⟨(loadFavoritesCache_failsSoft
      (some (.obj [("version", .num 1), ("entries", .obj [])]))).2.1
      (.obj [("version", .num 1), ("entries", .obj [])]) rfl rfl (by decide)
      (by decide),
    (loadFavoritesCache_failsSoft (some (.obj [("version", .num 2)]))).2.2
      (.obj [("version", .num 2)]) rfl (Or.inr (Or.inl (by decide)))⟩

/-! ## Paid-access merge (`main`, `src/jobs/topEarning1500Enriched.ts`) -/

/-- The fields of a fetched game-details record that the paid-access merge
reads (`d` may be `undefined`, hence the merge takes an `Option`). -/
structure GameDetails where
  isPaidAccess : Option Bool
  price : Option JsNumber
  rootPlaceId : Option Int
deriving DecidableEq, Repr

/-- Result of `fetchPaidAccessFromPlaceDetails`. -/
structure PaidFallback where
  paidAccess : Option Bool
  paidAccessPrice : Option Int
deriving DecidableEq, Repr

/-- The two cheap steps of the cascade, in source order: start from
`null`/`null`; if `typeof d?.isPaidAccess === "boolean"` take the boolean;
if `typeof d?.price === "number" && Number.isFinite(d.price)` take the price
and overwrite `paidAccess` with `d.price > 0`. -/
def cheapPaid (d : Option GameDetails) : Option Bool × Option Int :=
  let paidAccess : Option Bool :=
    match d with
    | some dd => dd.isPaidAccess
    | none => none
  match d with
  | some dd =>
    match dd.price with
    | some (.num p) => (some (decide (0 < p)), some p)
    | _ => (paidAccess, none)
  | none => (paidAccess, none)

/-- Merge result: the final pair plus whether the expensive
`fetchPaidAccessFromPlaceDetails` lookup was performed. -/
structure PaidMergeResult where
  paidAccess : Option Bool
  paidAccessPrice : Option Int
  usedFallback : Bool
deriving DecidableEq, Repr

/-- The per-subject paid-access merge of `main`: cheap steps, then the
place-details fallback when `paidAccess == null || paidAccessPrice == null`
and `typeof d?.rootPlaceId === "number"`, applying only the fallback fields
that learned something.  (The source's combined guard is split into the
`rootPlaceId` match and the unknown-value test; the conjunction commutes.) -/
def mergePaidAccess : Option GameDetails → (Int → PaidFallback) → PaidMergeResult
  | none, _ => ⟨none, none, false⟩
  | some dd, fb =>
    match dd.rootPlaceId with
    | none => ⟨(cheapPaid (some dd)).1, (cheapPaid (some dd)).2, false⟩
    | some rid =>
      if (cheapPaid (some dd)).1.isNone || (cheapPaid (some dd)).2.isNone then
        ⟨(match (fb rid).paidAccess with
          | some b => some b
          | none => (cheapPaid (some dd)).1),
         (match (fb rid).paidAccessPrice with
          | some p => some p
          | none => (cheapPaid (some dd)).2),
         true⟩
      else ⟨(cheapPaid (some dd)).1, (cheapPaid (some dd)).2, false⟩

/-- C5 counterexample.  First half: with `isPaidAccess = false` present and
`price = 10`, the merge reports `paidAccess = true` — the price inference
overwrites the fetched boolean instead of trusting it.  Second half: with
`isPaidAccess = true` present (so `paidAccess` is resolved cheaply) but no
price and a root place id, the expensive fallback lookup is nevertheless
performed (`usedFallback = true`), because the source guards it with
`paidAccess == null || paidAccessPrice == null`, not with both unknown. -/
theorem mergePaidAccess_counterexample :
    mergePaidAccess (some ⟨some false, some (.num 10), none⟩)
        (fun _ => ⟨none, none⟩) =
      ⟨some true, some 10, false⟩ ∧
    mergePaidAccess (some ⟨some true, none, some 7⟩)
        (fun _ => ⟨none, none⟩) =
      ⟨some true, none, true⟩ := by
  exact ⟨rfl, rfl⟩

/-- C5 (amended): a finite numeric price, when present, determines both the
price and `paidAccess = price > 0`, overwriting the fetched boolean; the
fetched boolean is used only when no finite price is present; and the
expensive fallback lookup is performed exactly when at least one of the two
values is still unknown after the cheap steps and `rootPlaceId` is present. -/
theorem mergePaidAccess_cascade (d : Option GameDetails) (fb : Int → PaidFallback) :
    (∀ dd p, d = some dd → dd.price = some (.num p) →
      cheapPaid d = (some (decide (0 < p)), some p)) ∧
    (∀ dd, d = some dd → (∀ p, dd.price ≠ some (.num p)) →
      cheapPaid d = (dd.isPaidAccess, none)) ∧
    ((mergePaidAccess d fb).usedFallback = true ↔
      ((cheapPaid d).1 = none ∨ (cheapPaid d).2 = none) ∧
      ∃ dd rid, d = some dd ∧ dd.rootPlaceId = some rid) ∧
    ((mergePaidAccess d fb).usedFallback = false →
      mergePaidAccess d fb =
        ⟨(cheapPaid d).1, (cheapPaid d).2, false⟩) := by
  refine ⟨?_, ?_, ?_, ?_⟩
  · rintro dd p rfl hp
    simp [cheapPaid, hp]
  · rintro dd rfl hp
    match hq : dd.price with
    | none => simp [cheapPaid, hq]
    | some (.num p) => exact absurd hq (hp p)
    | some .nan => simp [cheapPaid, hq]
    | some .posInf => simp [cheapPaid, hq]
    | some .negInf => simp [cheapPaid, hq]
  · match d with
    | none =>
      simp [mergePaidAccess]
    | some dd =>
      match hrid : dd.rootPlaceId with
      | none =>
        simp only [mergePaidAccess, hrid, Bool.false_eq_true, false_iff,
          not_and, not_exists]
        rintro _ dd' rid h hr
        obtain rfl : dd = dd' := Option.some_inj.mp h
        rw [hrid] at hr
        exact Option.noConfusion hr
      | some rid =>
        by_cases hc : ((cheapPaid (some dd)).1.isNone ||
            (cheapPaid (some dd)).2.isNone) = true
        · simp only [mergePaidAccess, hrid, hc, if_true]
          simp only [Bool.or_eq_true, Option.isNone_iff_eq_none] at hc
          constructor
          · intro _
            exact ⟨hc, dd, rid, rfl, hrid⟩
          · intro _
            trivial
        · simp only [mergePaidAccess, hrid]
          rw [if_neg hc]
          simp only [Bool.or_eq_true, Option.isNone_iff_eq_none] at hc
          simp only [Bool.false_eq_true, false_iff, not_and, not_exists]
          intro hcheap
          exact absurd hcheap hc
  · intro hf
    match d with
    | none => rfl
    | some dd =>
      match hrid : dd.rootPlaceId with
      | none =>
        simp only [mergePaidAccess, hrid]
      | some rid =>
        by_cases hc : ((cheapPaid (some dd)).1.isNone ||
            (cheapPaid (some dd)).2.isNone) = true
        · exfalso
          simp only [mergePaidAccess, hrid, hc, if_true] at hf
          exact Bool.noConfusion hf
        · simp only [mergePaidAccess, hrid]
          rw [if_neg hc]

/-- C5-amended witness: when `isPaidAccess = true` and `price = 0` are both
present the cheap steps resolve both values (to `false`/`0`, the price
overriding the boolean) and no fallback lookup happens. -/
theorem mergePaidAccess_cascade_witness :
    cheapPaid (some ⟨some true, some (.num 0), some 7⟩) =
      (some false, some 0) ∧
    mergePaidAccess (some ⟨some true, some (.num 0), some 7⟩)
        (fun _ => ⟨some true, some 99⟩) =
      ⟨some false, some 0, false⟩ :=
  ⟨(mergePaidAccess_cascade (some ⟨some true, some (.num 0), some 7⟩)
      (fun _ => ⟨some true, some 99⟩)).1 ⟨some true, some (.num 0), some 7⟩ 0
      rfl rfl,
    by
      have h4 := (mergePaidAccess_cascade
        (some ⟨some true, some (.num 0), some 7⟩)
        (fun _ => ⟨some true, some 99⟩)).2.2.2
      have hfb : (mergePaidAccess (some ⟨some true, some (.num 0), some 7⟩)
          (fun _ => ⟨some true, some 99⟩)).usedFallback = false := by decide
      rw [h4 hfb]
      decide⟩

/-! ## Batch runs and their failure policies (`votes.ts`, `favorites.ts`)

The runs are modelled over an abstract per-task fetch outcome (`Except`):
a terminal error from `fetchJsonWithRetry` either propagates out of the
worker — rejecting `Promise.all` and the whole call (votes) — or is caught
by the surrounding `try`/`catch` (favorites). -/

/-- One row of the votes endpoint's `data` array; `upVotes`/`downVotes` may
be absent (`row.upVotes ?? 0`). -/
structure VoteRow where
  id : Int
  upVotes : Option Int
  downVotes : Option Int
deriving DecidableEq, Repr

/-- `type VoteInfo = { upVotes: number; downVotes: number }`. -/
structure VoteInfo where
  upVotes : Int
  downVotes : Int
deriving DecidableEq, Repr

/-- `VotesResponse`; the `data` array may be absent (`json.data ?? []`). -/
structure VotesResponse where
  data : Option (List VoteRow)
deriving DecidableEq, Repr

/-- `for (const row of json.data ?? []) out.set(row.id, {...})`. -/
def mergeVoteRows (out : List (Int × VoteInfo)) :
    List VoteRow → List (Int × VoteInfo)
  | [] => out
  | r :: rest =>
    mergeVoteRows (jsSet out r.id ⟨r.upVotes.getD 0, r.downVotes.getD 0⟩) rest

/-- The vote workers' processing of the claimed chunks, in claim order.
There is no `try`/`catch` in `fetchVotesBatch`: the first task whose fetch
fails terminally rejects the run and no map is returned. -/
def runVoteChunks {ε : Type}
    (fetchOne : List JsNumber → Except ε VotesResponse) :
    List (List JsNumber) → List (Int × VoteInfo) →
      Except ε (List (Int × VoteInfo))
  | [], out => .ok out
  | c :: cs, out =>
    match fetchOne c with
    | .error e => .error e
    | .ok json => runVoteChunks fetchOne cs (mergeVoteRows out (json.data.getD []))

/-- `fetchVotesBatch`, abstracted over the per-chunk fetch outcome. -/
def fetchVotesBatchRun {ε : Type}
    (fetchOne : List JsNumber → Except ε VotesResponse)
    (universeIds : List JsNumber) (bs : Option Int) :
    Except ε (List (Int × VoteInfo)) :=
  runVoteChunks fetchOne (votesBatchPlan universeIds bs) []

/-- `type FavoritesCountResponse = { favoritesCount: number }`; the field
may be absent (`json.favoritesCount ?? 0`). -/
structure FavoritesCountResponse where
  favoritesCount : Option Int
deriving DecidableEq, Repr

/-- The value recorded for one favorites subject: the fetched count on
success, the documented default `0` when the task's fetch failed terminally
(the `catch` branch). -/
def favValue {ε : Type} (g : JsNumber → Except ε FavoritesCountResponse)
    (id : JsNumber) : Int :=
  match g id with
  | .ok json => json.favoritesCount.getD 0
  | .error _ => 0

/-- The favorites workers' processing of the deduplicated ids, in claim
order.  The fetch sits in a `try`/`catch`: a terminal error records 0 for
that subject and the run continues. -/
def runFavoriteIds {ε : Type}
    (g : JsNumber → Except ε FavoritesCountResponse) :
    List JsNumber → List (JsNumber × Int) → List (JsNumber × Int)
  | [], out => out
  | id :: rest, out =>
    match g id with
    | .ok json =>
      runFavoriteIds g rest (jsSet out id (json.favoritesCount.getD 0))
    | .error _ => runFavoriteIds g rest (jsSet out id 0)

/-- `fetchFavoritesCountBatch`, abstracted over the per-id fetch outcome.
The id list is deduplicated and filtered exactly as in `fetchVotesBatch`. -/
def fetchFavoritesCountBatchRun {ε : Type}
    (g : JsNumber → Except ε FavoritesCountResponse)
    (universeIds : List JsNumber) : List (JsNumber × Int) :=
  runFavoriteIds g (validUniverseIds universeIds) []

theorem runVoteChunks_error {ε : Type}
    (f : List JsNumber → Except ε VotesResponse)
    (cs : List (List JsNumber)) (out : List (Int × VoteInfo))
    (h : ∃ c ∈ cs, ∃ e, f c = .error e) :
    ∃ e', runVoteChunks f cs out = .error e' ∧
      ∃ c' ∈ cs, f c' = .error e' := by
  induction cs generalizing out with
  | nil => rcases h with ⟨c, hc, _⟩; exact absurd hc (List.not_mem_nil c)
  | cons c cs ih =>
    match hfc : f c with
    | .error e =>
      refine ⟨e, ?_, c, List.mem_cons_self c cs, hfc⟩
      simp [runVoteChunks, hfc]
    | .ok json =>
      rcases h with ⟨c', hc', e', he'⟩
      have hc'cs : c' ∈ cs := by
        rcases List.mem_cons.mp hc' with rfl | hmem
        · rw [hfc] at he'; exact Except.noConfusion he'
        · exact hmem
      rcases ih (mergeVoteRows out (json.data.getD [])) ⟨c', hc'cs, e', he'⟩
        with ⟨e'', hrun, c'', hc'', he''⟩
      refine ⟨e'', ?_, c'', List.mem_cons_of_mem c hc'', he''⟩
      simpa [runVoteChunks, hfc] using hrun

theorem runVoteChunks_ok {ε : Type}
    (f : List JsNumber → Except ε VotesResponse)
    (cs : List (List JsNumber)) (out : List (Int × VoteInfo))
    (h : ∀ c ∈ cs, ∃ j, f c = .ok j) :
    ∃ m, runVoteChunks f cs out = .ok m := by
  induction cs generalizing out with
  | nil => exact ⟨out, rfl⟩
  | cons c cs ih =>
    rcases h c (List.mem_cons_self c cs) with ⟨j, hj⟩
    rcases ih (mergeVoteRows out (j.data.getD []))
        (fun c' hc' => h c' (List.mem_cons_of_mem c hc')) with ⟨m, hm⟩
    refine ⟨m, ?_⟩
    simpa [runVoteChunks, hj] using hm

theorem runFavoriteIds_jsGet_notmem {ε : Type}
    (g : JsNumber → Except ε FavoritesCountResponse)
    (ids : List JsNumber) (out : List (JsNumber × Int)) (id : JsNumber)
    (h : id ∉ ids) :
    jsGet (runFavoriteIds g ids out) id = jsGet out id := by
  induction ids generalizing out with
  | nil => rfl
  | cons x rest ih =>
    simp only [List.mem_cons, not_or] at h
    match hgx : g x with
    | .ok json =>
      simp only [runFavoriteIds, hgx]
      rw [ih _ h.2, jsGet_jsSet_other _ _ _ _ h.1]
    | .error e =>
      simp only [runFavoriteIds, hgx]
      rw [ih _ h.2, jsGet_jsSet_other _ _ _ _ h.1]

theorem runFavoriteIds_jsGet_mem {ε : Type}
    (g : JsNumber → Except ε FavoritesCountResponse)
    (ids : List JsNumber) (out : List (JsNumber × Int)) (id : JsNumber)
    (hnd : ids.Nodup) (h : id ∈ ids) :
    jsGet (runFavoriteIds g ids out) id = some (favValue g id) := by
  induction ids generalizing out with
  | nil => exact absurd h (List.not_mem_nil id)
  | cons x rest ih =>
    rw [List.nodup_cons] at hnd
    rcases List.mem_cons.mp h with rfl | hmem
    · match hgx : g id with
      | .ok json =>
        simp only [runFavoriteIds, hgx]
        rw [runFavoriteIds_jsGet_notmem g rest _ id hnd.1, jsGet_jsSet_self]
        simp [favValue, hgx]
      | .error e =>
        simp only [runFavoriteIds, hgx]
        rw [runFavoriteIds_jsGet_notmem g rest _ id hnd.1, jsGet_jsSet_self]
        simp [favValue, hgx]
    · match hgx : g x with
      | .ok json =>
        simp only [runFavoriteIds, hgx]
        exact ih _ hnd.2 hmem
      | .error e =>
        simp only [runFavoriteIds, hgx]
        exact ih _ hnd.2 hmem

/-- C6: the two call sites implement divergent failure policies.  Votes
(strict): a single task's terminal error makes the run fail with one of the
tasks' errors and no partial map is returned, and the run succeeds only when
every chunk fetch succeeds.  Favorites (lenient): every deduplicated valid
subject is present in the output map regardless of failures, carrying the
fetched count or the documented default 0 when its own fetch failed. -/
theorem batch_failure_policies {ε : Type} :
    (∀ (f : List JsNumber → Except ε VotesResponse)
        (ids : List JsNumber) (bs : Option Int) (c : List JsNumber) (e : ε),
      c ∈ votesBatchPlan ids bs → f c = .error e →
      ∃ e', fetchVotesBatchRun f ids bs = .error e' ∧
        ∃ c' ∈ votesBatchPlan ids bs, f c' = .error e') ∧
    (∀ (f : List JsNumber → Except ε VotesResponse)
        (ids : List JsNumber) (bs : Option Int),
      (∀ c ∈ votesBatchPlan ids bs, ∃ j, f c = .ok j) →
      ∃ m, fetchVotesBatchRun f ids bs = .ok m) ∧
    (∀ (g : JsNumber → Except ε FavoritesCountResponse)
        (ids : List JsNumber) (id : JsNumber),
      id ∈ validUniverseIds ids →
      jsGet (fetchFavoritesCountBatchRun g ids) id = some (favValue g id)) := by
  refine ⟨?_, ?_, ?_⟩
  · intro f ids bs c e hc he
    exact runVoteChunks_error f (votesBatchPlan ids bs) [] ⟨c, hc, e, he⟩
  · intro f ids bs h
    exact runVoteChunks_ok f (votesBatchPlan ids bs) [] h
  · intro g ids id hid
    have hnd : (validUniverseIds ids).Nodup := validUniverseIds_nodup ids
    have hflat := votesBatchPlan_flatten ids none
    exact runFavoriteIds_jsGet_mem g (validUniverseIds ids) [] id hnd hid

/-- C6 witness: with two single-id chunks where the second chunk's fetch
fails terminally, the votes run rejects, while the favorites run over the
same ids (second id failing) still maps both ids, the failed one to 0. -/
theorem batch_failure_policies_witness :
    (([JsNumber.num 2] ∈ votesBatchPlan [.num 1, .num 2] (some 1)) ∧
      ∃ e', fetchVotesBatchRun
        (fun c => if c = [JsNumber.num 2] then Except.error ()
                  else Except.ok ⟨some []⟩) [.num 1, .num 2] (some 1) =
          .error e' ∧
        ∃ c' ∈ votesBatchPlan [.num 1, .num 2] (some 1),
          (fun c => if c = [JsNumber.num 2] then Except.error ()
                    else Except.ok (⟨some []⟩ : VotesResponse)) c' =
            .error e') ∧
    jsGet (fetchFavoritesCountBatchRun
        (fun id => if id = JsNumber.num 2 then Except.error ()
                   else Except.ok ⟨some 5⟩) [.num 1, .num 2]) (.num 2) =
      some (favValue
        (fun id => if id = JsNumber.num 2 then Except.error ()
                   else Except.ok (⟨some 5⟩ : FavoritesCountResponse))
        (.num 2)) :=
  ⟨⟨by decide,
      (batch_failure_policies (ε := Unit)).1
        (fun c => if c = [JsNumber.num 2] then Except.error ()
                  else Except.ok ⟨some []⟩)
        [.num 1, .num 2] (some 1) [JsNumber.num 2] () (by decide) rfl⟩,
    (batch_failure_policies (ε := Unit)).2.2
      (fun id => if id = JsNumber.num 2 then Except.error ()
                 else Except.ok ⟨some 5⟩)
      [.num 1, .num 2] (.num 2) (by decide)⟩

/-- C7 counterexample: a subject whose fetch failed terminally is recorded
as 0 — exactly the output produced when the endpoint confirms a zero count.
The two runs are indistinguishable, so no distinct unknown marker exists. -/
theorem favoritesDefault_indistinguishable :
    fetchFavoritesCountBatchRun (ε := Unit) (fun _ => .error ()) [.num 1] =
      fetchFavoritesCountBatchRun (ε := Unit) (fun _ => .ok ⟨some 0⟩)
        [.num 1] ∧
    fetchFavoritesCountBatchRun (ε := Unit) (fun _ => .error ()) [.num 1] =
      [(.num 1, 0)] :=
  ⟨rfl, rfl⟩

/-- C7 (amended): a lenient-mode degradation is recorded with the default
value 0, the same value as a genuinely confirmed zero count; the output maps
failed subjects to 0 rather than to a distinct unknown marker. -/
theorem favoritesDefault_is_zero {ε : Type}
    (g : JsNumber → Except ε FavoritesCountResponse)
    (ids : List JsNumber) (id : JsNumber) (e : ε)
    (hid : id ∈ validUniverseIds ids) (hfail : g id = .error e) :
    jsGet (fetchFavoritesCountBatchRun g ids) id = some 0 := by
  have := runFavoriteIds_jsGet_mem g (validUniverseIds ids) [] id
    (validUniverseIds_nodup ids) hid
  rw [fetchFavoritesCountBatchRun, this]
  simp [favValue, hfail]

/-- C7-amended witness: id 3 fails terminally and is mapped to 0. -/
theorem favoritesDefault_is_zero_witness :
    JsNumber.num 3 ∈ validUniverseIds [.num 3] ∧
    jsGet (fetchFavoritesCountBatchRun (ε := Unit) (fun _ => .error ())
      [.num 3]) (.num 3) = some 0 :=
  ⟨by decide,
    favoritesDefault_is_zero (fun _ => .error ()) [.num 3] (.num 3) ()
      (by decide) rfl⟩

/-! ## Resilient fetcher (`fetchJsonWithRetry`)

The file defining `fetchJsonWithRetry` (`src/scrape/http.ts`) is not part of
the repository snapshot — only its callers are — so the fetcher is modelled
from the specification (§4.2 and §7). -/

/-- Modelled from the spec: the observable outcome of one request attempt.
`httpFail code` is a response with a non-2xx status `code`; `success body`
is a 2xx response whose JSON parse outcome is `body` (`none` = parse
failure). -/
inductive AttemptOutcome
  | netErr
  | httpFail (code : Nat)
  | success (body : Option Json)

/-- Modelled from the spec: `FetchError{kind}`. -/
inductive FetchError
  | httpStatus (code : Nat)
  | malformed
  | exhausted
deriving DecidableEq, Repr

/-- Modelled from the spec: the retry policy of `fetchJsonWithRetry`. -/
structure RetryPolicy where
  maxRetries : Nat
  baseDelayMs : Int
  maxDelayMs : Int
  retryOnStatuses : List Nat
deriving DecidableEq, Repr

/-- Modelled from the spec: `min(baseDelay * 2^attempt, maxDelay)`. -/
def backoffDelay (p : RetryPolicy) (attempt : Nat) : Int :=
  min (p.baseDelayMs * 2 ^ attempt) p.maxDelayMs

/-- Modelled from the spec: how one attempt's outcome is classified.
`some r` is a terminal result (a 2xx response with its parse outcome, or a
non-2xx status outside `retryOnStatuses`, which fails immediately with the
non-retryable `FetchError.httpStatus`); `none` is a retryable failure (a
network-level failure or a status in `retryOnStatuses`). -/
def attemptStep (p : RetryPolicy) : AttemptOutcome →
    Option (Except FetchError Json)
  | .success (some j) => some (.ok j)
  | .success none => some (.error .malformed)
  | .netErr => none
  | .httpFail code =>
    if code ∈ p.retryOnStatuses then none
    else some (.error (.httpStatus code))

/-- Modelled from the spec: the retry loop of `fetchJsonWithRetry`.
`responses attempt` is the outcome of the attempt with that index; the
result carries the list of backoff sleeps performed and the number of
attempts issued.  `fuel` is the remaining retry budget
(`maxRetries - attempt`): a retryable failure with no budget left fails with
`FetchError.exhausted`; otherwise the loop sleeps
`min(baseDelay * 2^attempt, maxDelay)` and retries the next attempt. -/
def fetchRetryGo (p : RetryPolicy) (responses : Nat → AttemptOutcome) :
    Nat → Nat → List Int → Except FetchError Json × List Int × Nat
  | 0, attempt, sleeps =>
    (match attemptStep p (responses attempt) with
     | some r => (r, sleeps, attempt + 1)
     | none => (.error .exhausted, sleeps, attempt + 1))
  | fuel + 1, attempt, sleeps =>
    (match attemptStep p (responses attempt) with
     | some r => (r, sleeps, attempt + 1)
     | none =>
       fetchRetryGo p responses fuel (attempt + 1)
         (sleeps ++ [backoffDelay p attempt]))

/-- Modelled from the spec: `fetchJsonWithRetry(url, init, policy)` as a
function of the attempt outcomes. -/
def fetchJsonWithRetry (p : RetryPolicy) (responses : Nat → AttemptOutcome) :
    Except FetchError Json × List Int × Nat :=
  fetchRetryGo p responses p.maxRetries 0 []

/-- C9: when the first response has a non-2xx status outside
`retryOnStatuses`, the call fails immediately with the non-retryable
`FetchError.httpStatus`: exactly one attempt is issued, no backoff sleep
occurs, and no retry budget is spent. -/
theorem fetchJsonWithRetry_nonretryable_immediate (p : RetryPolicy)
    (responses : Nat → AttemptOutcome) (c : Nat)
    (h0 : responses 0 = .httpFail c) (h1 : c ∉ p.retryOnStatuses) :
    fetchJsonWithRetry p responses = (.error (.httpStatus c), [], 1) := by
  have hstep : attemptStep p (responses 0) =
      some (.error (.httpStatus c)) := by
    rw [h0]
    simp [attemptStep, h1]
  unfold fetchJsonWithRetry
  match hm : p.maxRetries with
  | 0 => simp [fetchRetryGo, hstep]
  | n + 1 => simp [fetchRetryGo, hstep]

/-- C9 witness: with the votes call site's retry policy and a permanent 404
on the first attempt, the call fails at once with `httpStatus 404`, zero
sleeps, one attempt. -/
theorem fetchJsonWithRetry_nonretryable_immediate_witness :
    (404 ∉ [429, 500, 502, 503, 504]) ∧
    fetchJsonWithRetry ⟨7, 600, 30000, [429, 500, 502, 503, 504]⟩
      (fun _ => .httpFail 404) = (.error (.httpStatus 404), [], 1) :=
  ⟨by decide,
    fetchJsonWithRetry_nonretryable_immediate
      ⟨7, 600, 30000, [429, 500, 502, 503, 504]⟩ (fun _ => .httpFail 404) 404
      rfl (by decide)⟩

end TopEarning
